import Mathlib

/-!
Verification of the batch code-generation orchestration of ProtoConverter
(`src/main.py`).

The worker thread `ProtocWorker` and the validation prefix of
`ProtoConverterGUI.start_conversion` are embedded shallowly:

* subprocess execution (`subprocess.run`) and directory creation
  (`os.makedirs(..., exist_ok=True)`) are abstracted as an ambient `World`
  assigning an outcome to every argument vector / directory;
* the Qt signals `progress` / `finished` become an explicit trace of
  `Event`s, in emission order;
* the exact f-strings of the source are kept, factored through `Msg.render`
  so that theorems can speak about the structure of each message;
* every invocation attempt (a call of `subprocess.run`) is recorded, in
  order, in a `spawned` list of argument vectors.
-/

/-! ### POSIX path helpers (`os.path`) -/

/-- Embedding of `os.path.basename` for POSIX paths: the part after the last slash. -/
def basename (p : String) : String :=
  String.mk ((p.toList.reverse.takeWhile (fun c => c ≠ '/')).reverse)

/-- Embedding of `os.path.dirname` for POSIX paths: everything before the last slash,
with trailing slashes stripped unless the head is only slashes
(mirrors `posixpath.split`). -/
def dirname (p : String) : String :=
  let head := (p.toList.reverse.dropWhile (fun c => c ≠ '/')).reverse
  if head ≠ [] ∧ head.any (fun c => c ≠ '/') then
    String.mk ((head.reverse.dropWhile (fun c => c = '/')).reverse)
  else String.mk head

/-- Embedding of `os.path.join` for POSIX paths, two arguments, as used by the worker
(`os.path.join(self.output_dir, "java")` etc.). -/
def joinPath (a b : String) : String :=
  if b.toList.head? = some '/' then b
  else if a = "" ∨ a.toList.getLast? = some '/' then a ++ b
  else a ++ "/" ++ b

/-! ### Subprocess and filesystem world -/

/-- Outcome of a completed `subprocess.run(cmd, capture_output=True, text=True)`. -/
structure ProcResult where
  returncode : Int
  stderr : String
deriving DecidableEq

/-- A `subprocess.run` call either completes with a `ProcResult` or raises an
exception (e.g. `FileNotFoundError`) whose text is `msg`. -/
inductive ProcOutcome where
  | ok (res : ProcResult)
  | exn (msg : String)
deriving DecidableEq

/-- The ambient environment of a run: what every subprocess invocation
returns, whether `os.makedirs(d, exist_ok=True)` succeeds (`none`) or raises
an exception with text `msg` (`some msg`), and the value of
`sys.executable`. -/
structure World where
  runProc : List String → ProcOutcome
  makedirs : String → Option String
  sysExecutable : String

/-! ### Signal payloads -/

/-- The messages emitted by `ProtocWorker` through its `progress` and
`finished` signals, one constructor per f-string of the source;
`Msg.render` recovers the exact string. -/
inductive Msg where
  | processing (name : String) (idx total : Nat)
  | genJava (name : String)
  | genPythonGrpc (name : String)
  | genPython (name : String)
  | javaFailed (stderr : String)
  | pythonGrpcFailed (stderr : String)
  | pythonFailed (stderr : String)
  | pythonGrpcError (emsg : String)
  | pythonError (emsg : String)
  | runError (emsg : String)
  | successDone (count : Nat)
deriving DecidableEq

/-- The exact strings of `src/main.py`. -/
def Msg.render : Msg → String
  | .processing name idx total =>
      "正在处理: " ++ name ++ " (" ++ toString idx ++ "/" ++ toString total ++ ")"
  | .genJava name => "生成Java代码: " ++ name
  | .genPythonGrpc name => "生成Python + gRPC代码: " ++ name
  | .genPython name => "生成Python代码: " ++ name
  | .javaFailed stderr => "Java生成失败: " ++ stderr
  | .pythonGrpcFailed stderr => "Python gRPC生成失败: " ++ stderr
  | .pythonFailed stderr => "Python生成失败: " ++ stderr
  | .pythonGrpcError emsg => "Python gRPC生成出错: " ++ emsg
  | .pythonError emsg => "Python生成出错: " ++ emsg
  | .runError emsg => "处理过程中出错: " ++ emsg
  | .successDone count => "成功处理 " ++ toString count ++ " 个文件"

/-- One emission on the worker's signal channel: `progress.emit` or
`finished.emit`. -/
inductive Event where
  | progress (msg : Msg)
  | finished (success : Bool) (msg : Msg)
deriving DecidableEq

/-! ### The job descriptor (`ProtocWorker.__init__`) -/

/-- The state a `ProtocWorker` is constructed with. -/
structure Job where
  proto_files : List String
  output_dir : String
  generate_java : Bool
  generate_python : Bool
  generate_python_grpc : Bool
  protoc_path : String
  include_paths : List String
deriving DecidableEq

/-- The directory `os.path.join(self.output_dir, "java")`. -/
def javaOutput (job : Job) : String := joinPath job.output_dir "java"

/-- The directory `os.path.join(self.output_dir, "python")`. -/
def pythonOutput (job : Job) : String := joinPath job.output_dir "python"

/-- The `include_args` list composed in `ProtocWorker.run` (lines 38–51):
the file's own directory when non-empty, then every configured include
path, and the fallback `--proto_path=.` when that list is empty. -/
def includeArgs (job : Job) (protoFile : String) : List String :=
  let fromDir : List String :=
    if dirname protoFile ≠ "" then ["--proto_path=" ++ dirname protoFile] else []
  let fromIncludes : List String :=
    job.include_paths.map (fun p => "--proto_path=" ++ p)
  if fromDir ++ fromIncludes = [] then ["--proto_path=."]
  else fromDir ++ fromIncludes

/-- The `java_cmd` argument vector (lines 57–62). -/
def javaCmd (job : Job) (protoFile : String) : List String :=
  job.protoc_path :: ("--java_out=" ++ javaOutput job) ::
    (includeArgs job protoFile ++ [protoFile])

/-- The argument vector of `_generate_python_with_grpc` (lines 98–104). -/
def pythonGrpcCmd (sysExe : String) (job : Job) (protoFile : String) : List String :=
  sysExe :: "-m" :: "grpc_tools.protoc" ::
    ("--python_out=" ++ pythonOutput job) ::
    ("--grpc_python_out=" ++ pythonOutput job) ::
    (includeArgs job protoFile ++ [protoFile])

/-- The argument vector of `_generate_python_only` (lines 121–126). -/
def pythonOnlyCmd (sysExe : String) (job : Job) (protoFile : String) : List String :=
  sysExe :: "-m" :: "grpc_tools.protoc" ::
    ("--python_out=" ++ pythonOutput job) ::
    (includeArgs job protoFile ++ [protoFile])

/-! ### The worker -/

/-- How processing one schema file ends: `done` (fall through to the next
file), `stopped` (a `finished` signal was emitted inside and `run`
returns), or `raised msg` (an exception propagates to the outer
`try`/`except` of `ProtocWorker.run`). -/
inductive FileStatus where
  | done
  | stopped
  | raised (msg : String)
deriving DecidableEq

/-- Observable effect of processing one schema file: the events emitted, the
subprocess invocations attempted (in order), and how the step ended. -/
structure FileOut where
  events : List Event
  spawned : List (List String)
  status : FileStatus
deriving DecidableEq

/-- Embedding of `ProtocWorker._generate_python_with_grpc` (lines 94–115): events
emitted, invocations attempted, and the returned boolean. -/
def generate_python_with_grpc (w : World) (job : Job) (protoFile : String) :
    List Event × List (List String) × Bool :=
  let cmd := pythonGrpcCmd w.sysExecutable job protoFile
  match w.runProc cmd with
  | .exn m => ([Event.finished false (Msg.pythonGrpcError m)], [cmd], false)
  | .ok r =>
      if r.returncode ≠ 0 then
        ([Event.finished false (Msg.pythonGrpcFailed r.stderr)], [cmd], false)
      else ([], [cmd], true)

/-- Embedding of `ProtocWorker._generate_python_only` (lines 117–137). -/
def generate_python_only (w : World) (job : Job) (protoFile : String) :
    List Event × List (List String) × Bool :=
  let cmd := pythonOnlyCmd w.sysExecutable job protoFile
  match w.runProc cmd with
  | .exn m => ([Event.finished false (Msg.pythonError m)], [cmd], false)
  | .ok r =>
      if r.returncode ≠ 0 then
        ([Event.finished false (Msg.pythonFailed r.stderr)], [cmd], false)
      else ([], [cmd], true)

/-- The Python-target half of the loop body (lines 70–85), continuing from
events `evs` and attempts `sp` accumulated by the Java half. -/
def pythonPhase (w : World) (job : Job) (protoFile : String)
    (evs : List Event) (sp : List (List String)) : FileOut :=
  if job.generate_python || job.generate_python_grpc then
    match w.makedirs (pythonOutput job) with
    | some m => ⟨evs, sp, .raised m⟩
    | none =>
        if job.generate_python_grpc then
          let ev := Event.progress (Msg.genPythonGrpc (basename protoFile))
          let res := generate_python_with_grpc w job protoFile
          ⟨evs ++ ev :: res.1, sp ++ res.2.1,
            if res.2.2 then .done else .stopped⟩
        else
          let ev := Event.progress (Msg.genPython (basename protoFile))
          let res := generate_python_only w job protoFile
          ⟨evs ++ ev :: res.1, sp ++ res.2.1,
            if res.2.2 then .done else .stopped⟩
  else ⟨evs, sp, .done⟩

/-- One iteration of the loop of `ProtocWorker.run` (lines 34–87) for the
file at position `i` (0-based) of `total`. -/
def processFile (w : World) (job : Job) (i total : Nat) (protoFile : String) :
    FileOut :=
  let ev0 := Event.progress (Msg.processing (basename protoFile) (i + 1) total)
  if job.generate_java then
    match w.makedirs (javaOutput job) with
    | some m => ⟨[ev0], [], .raised m⟩
    | none =>
        let ev1 := Event.progress (Msg.genJava (basename protoFile))
        let cmd := javaCmd job protoFile
        match w.runProc cmd with
        | .exn m => ⟨[ev0, ev1], [cmd], .raised m⟩
        | .ok r =>
            if r.returncode ≠ 0 then
              ⟨[ev0, ev1, Event.finished false (Msg.javaFailed r.stderr)],
                [cmd], .stopped⟩
            else pythonPhase w job protoFile [ev0, ev1] [cmd]
  else pythonPhase w job protoFile [ev0] []

/-- Result of the whole `for` loop: trace, attempts, how it ended, and the
value of `success_count`. -/
structure LoopOut where
  events : List Event
  spawned : List (List String)
  status : FileStatus
  count : Nat
deriving DecidableEq

/-- The `for i, proto_file in enumerate(self.proto_files)` loop, started at
index `i`. -/
def runLoop (w : World) (job : Job) (total : Nat) : Nat → List String → LoopOut
  | _, [] => ⟨[], [], .done, 0⟩
  | i, f :: rest =>
      let out := processFile w job i total f
      match out.status with
      | .done =>
          let r := runLoop w job total (i + 1) rest
          ⟨out.events ++ r.events, out.spawned ++ r.spawned, r.status, r.count + 1⟩
      | .stopped => ⟨out.events, out.spawned, .stopped, 0⟩
      | .raised m => ⟨out.events, out.spawned, .raised m, 0⟩

/-- Observable effect of a whole run: the signal trace and the attempted
invocations. -/
structure RunOut where
  events : List Event
  spawned : List (List String)
deriving DecidableEq

/-- Embedding of `ProtocWorker.run` (lines 29–92): the loop, the success `finished`
emission (line 89), and the outer `except` handler (lines 91–92). -/
def ProtocWorker.run (w : World) (job : Job) : RunOut :=
  let total := job.proto_files.length
  let r := runLoop w job total 0 job.proto_files
  match r.status with
  | .done => ⟨r.events ++ [Event.finished true (Msg.successDone r.count)], r.spawned⟩
  | .stopped => ⟨r.events, r.spawned⟩
  | .raised m => ⟨r.events ++ [Event.finished false (Msg.runError m)], r.spawned⟩

/-! ### The GUI validation prefix (`ProtoConverterGUI.start_conversion`) -/

/-- The GUI state read by `start_conversion` (lines 561–626). -/
structure GuiState where
  proto_files : List String
  include_paths : List String
  output_dir_text : String
  java_checked : Bool
  python_checked : Bool
  python_grpc_checked : Bool
  protoc_path_text : String
  python_interpreter_text : String
deriving DecidableEq

/-- How `start_conversion` returns: a `QMessageBox.warning` plus `return`, the
grpcio-tools install prompt (either answer returns without a worker), an
uncaught exception, or the worker actually constructed and started. -/
inductive StartResult where
  | warned (message : String)
  | installPromptShown
  | crashed (emsg : String)
  | workerStarted (job : Job)
deriving DecidableEq

/-- The `ProtocWorker(...)` construction of lines 606–614. -/
def build_worker (g : GuiState) : Job :=
  { proto_files := g.proto_files
    output_dir := g.output_dir_text
    generate_java := g.java_checked
    generate_python := g.python_checked
    generate_python_grpc := g.python_grpc_checked
    protoc_path := g.protoc_path_text
    include_paths := g.include_paths }

/-- Embedding of `ProtoConverterGUI.start_conversion` (lines 561–626), up to starting the
worker.  The first component records every subprocess spawned on this path
(only the grpcio-tools import probe can occur).  The install dialog and the
`pip install` flow are abstracted into `installPromptShown`: on either answer
the method returns without starting a worker. -/
def start_conversion (w : World) (g : GuiState) :
    List (List String) × StartResult :=
  if g.proto_files = [] then ([], .warned "请选择至少一个Proto文件")
  else if g.output_dir_text = "" then ([], .warned "请选择输出目录")
  else if g.java_checked = false ∧ g.python_checked = false ∧
      g.python_grpc_checked = false then
    ([], .warned "请至少选择一种生成选项")
  else
    let afterCheck : List (List String) × Option StartResult :=
      if g.python_grpc_checked then
        let probe := [g.python_interpreter_text, "-c", "import grpc_tools.protoc"]
        match w.runProc probe with
        | .exn _ => ([probe], some (.warned "无法检查grpcio-tools状态"))
        | .ok r =>
            if r.returncode ≠ 0 then ([probe], some .installPromptShown)
            else ([probe], none)
      else ([], none)
    match afterCheck with
    | (sp, some res) => (sp, res)
    | (sp, none) =>
        match w.makedirs g.output_dir_text with
        | some m => (sp, .crashed m)
        | none => (sp, .workerStarted (build_worker g))

/-! ### Trace observables -/

/-- Is this event a `progress` emission? -/
def isProgressEvent : Event → Bool
  | .progress _ => true
  | .finished _ _ => false

/-- Is this event a `finished` (terminal) emission? -/
def isFinishedEvent : Event → Bool
  | .finished _ _ => true
  | .progress _ => false

/-- Is this event the per-file position header `正在处理: name (i/total)`? -/
def isHeaderEvent : Event → Bool
  | .progress (.processing _ _ _) => true
  | _ => false

/-- Is this argument vector an invocation of the grpcio toolchain
(`<interpreter> -m grpc_tools.protoc ...`)? -/
def isToolchainCmd : List String → Bool
  | _ :: m :: t :: _ => decide (m = "-m" ∧ t = "grpc_tools.protoc")
  | _ => false

/-- All invocation vectors `ProtocWorker` can attempt for one file, given the
enabled targets. -/
def fileCmds (sysExe : String) (job : Job) (protoFile : String) :
    List (List String) :=
  (if job.generate_java then [javaCmd job protoFile] else []) ++
  (if job.generate_python || job.generate_python_grpc then
    (if job.generate_python_grpc then [pythonGrpcCmd sysExe job protoFile]
     else [pythonOnlyCmd sysExe job protoFile])
   else [])

/-- Substring test on lists of characters, by brute force. -/
def listContainsSub (needle hay : List Char) : Bool :=
  (List.range (hay.length + 1)).any
    (fun k => decide ((hay.drop k).take needle.length = needle))

/-- Substring test on strings: does `hay` contain `needle`? -/
def strContainsSub (needle hay : String) : Bool :=
  listContainsSub needle.toList hay.toList

/-- Is this start result a `QMessageBox.warning` rejection? -/
def isWarned : StartResult → Bool
  | .warned _ => true
  | _ => false

/-! ### Concrete worlds and jobs used as test inputs -/

/-- A world where every subprocess exits 0 and every `makedirs` succeeds. -/
def wOk : World := ⟨fun _ => ProcOutcome.ok ⟨0, ""⟩, fun _ => none, "py"⟩

/-- A world where every subprocess exits 1 with stderr `boom`. -/
def wFail1 : World := ⟨fun _ => ProcOutcome.ok ⟨1, "boom"⟩, fun _ => none, "py"⟩

/-- A world where exactly the invocations naming `b.proto` exit 1 with
stderr `err2`. -/
def wFailB : World :=
  ⟨fun cmd => if "b.proto" ∈ cmd then ProcOutcome.ok ⟨1, "err2"⟩
              else ProcOutcome.ok ⟨0, ""⟩,
   fun _ => none, "py"⟩

/-- A world where every `makedirs` raises an exception `disk full`. -/
def wMkFail : World :=
  ⟨fun _ => ProcOutcome.ok ⟨0, ""⟩, fun _ => some "disk full", "py"⟩

/-- A world where every subprocess spawn raises `spawn failure`. -/
def wExn : World :=
  ⟨fun _ => ProcOutcome.exn "spawn failure", fun _ => none, "py"⟩

/-- One bare-name schema file, Java target only. -/
def jobOneJava : Job := ⟨["a.proto"], "out", true, false, false, "protoc", []⟩

/-- Two schema files in directory `/d`, Java target only. -/
def jobTwoJava : Job :=
  ⟨["/d/a.proto", "/d/b.proto"], "out", true, false, false, "protoc", []⟩

/-- Three bare-name schema files, Java target only. -/
def jobThreeJava : Job :=
  ⟨["a.proto", "b.proto", "c.proto"], "out", true, false, false, "protoc", []⟩

/-- One schema file, only the Python-with-gRPC target enabled. -/
def jobGrpcOnly : Job := ⟨["a.proto"], "out", false, false, true, "protoc", []⟩

/-- A GUI state whose schema-file list is empty. -/
def guiEmptyFiles : GuiState := ⟨[], [], "out", true, true, true, "protoc", "py"⟩

/-- Derived closed form: the events one file contributes on the success
path — its position header first, then one progress message per enabled
target invocation (used to state the amended C2). -/
def successFileEvents (job : Job) (total : Nat) (p : Nat × String) : List Event :=
  Event.progress (Msg.processing (basename p.2) (p.1 + 1) total) ::
    ((if job.generate_java then
        [Event.progress (Msg.genJava (basename p.2))] else []) ++
     (if job.generate_python || job.generate_python_grpc then
        (if job.generate_python_grpc then
          [Event.progress (Msg.genPythonGrpc (basename p.2))]
        else [Event.progress (Msg.genPython (basename p.2))])
      else []))

/-- A world where exactly the toolchain invocations exit 1 with stderr
`tool boom`, and everything else exits 0. -/
def wToolFail : World :=
  ⟨fun cmd => if isToolchainCmd cmd then ProcOutcome.ok ⟨1, "tool boom"⟩
              else ProcOutcome.ok ⟨0, ""⟩,
   fun _ => none, "py"⟩

/-- A world where exactly the toolchain invocations raise `spawn failure`
on spawn, and everything else exits 0. -/
def wToolExn : World :=
  ⟨fun cmd => if isToolchainCmd cmd then ProcOutcome.exn "spawn failure"
              else ProcOutcome.ok ⟨0, ""⟩,
   fun _ => none, "py"⟩

/-- One schema file, Java and Python-with-gRPC targets enabled. -/
def jobJavaGrpc : Job := ⟨["a.proto"], "out", true, false, true, "protoc", []⟩

/-- One schema file, only the basic Python target enabled. -/
def jobPyOnly : Job := ⟨["a.proto"], "out", false, true, false, "protoc", []⟩

/-! ### Include-path composition (claims C4, C5, C10) -/

/-- C4: for every schema file located in directory `D` (non-empty `dirname`)
and every include-path list `[A, B]`, the composed include-argument list is
exactly the file's directory first, then `A`, then `B`, each as a
`--proto_path=` flag. -/
theorem spec_C4_include_order (job : Job) (f D A B : String)
    (hD : dirname f = D) (hne : D ≠ "") (hinc : job.include_paths = [A, B]) :
    includeArgs job f =
      ["--proto_path=" ++ D, "--proto_path=" ++ A, "--proto_path=" ++ B] := by
  simp [includeArgs, hD, hne, hinc]

theorem spec_C4_witness :
    includeArgs
      { proto_files := ["/d/a.proto"], output_dir := "out",
        generate_java := true, generate_python := false,
        generate_python_grpc := false, protoc_path := "protoc",
        include_paths := ["A", "B"] } "/d/a.proto" =
      ["--proto_path=/d", "--proto_path=A", "--proto_path=B"] :=
  spec_C4_include_order _ "/d/a.proto" "/d" "A" "B" (by decide) (by decide) rfl

/-- The composed include-argument list is never empty. -/
lemma includeArgs_ne_nil (job : Job) (f : String) : includeArgs job f ≠ [] := by
  by_cases hd : dirname f = ""
  · by_cases hi : job.include_paths = []
    · simp [includeArgs, hd, hi]
    · simp [includeArgs, hd, hi]
  · simp [includeArgs, hd]

/-- C5: the composed include-argument list is never empty, and when both the
file's directory and the configured include paths are empty it is exactly
the single fallback entry `--proto_path=.`. -/
theorem spec_C5_fallback (job : Job) (f : String) :
    includeArgs job f ≠ [] ∧
    (dirname f = "" → job.include_paths = [] →
      includeArgs job f = ["--proto_path=."]) := by
  refine ⟨includeArgs_ne_nil job f, fun h1 h2 => ?_⟩
  simp [includeArgs, h1, h2]

theorem spec_C5_witness :
    includeArgs
      { proto_files := ["a.proto"], output_dir := "out",
        generate_java := true, generate_python := false,
        generate_python_grpc := false, protoc_path := "protoc",
        include_paths := [] } "a.proto" ≠ [] ∧
    includeArgs
      { proto_files := ["a.proto"], output_dir := "out",
        generate_java := true, generate_python := false,
        generate_python_grpc := false, protoc_path := "protoc",
        include_paths := [] } "a.proto" = ["--proto_path=."] :=
  ⟨(spec_C5_fallback _ "a.proto").1,
   (spec_C5_fallback _ "a.proto").2 (by decide) rfl⟩

/-- C10: for a bare filename (empty `dirname`) the containing directory is
omitted, so the include arguments are exactly the configured include paths;
the `--proto_path=.` fallback applies only when those are also empty. -/
theorem spec_C10_bare_filename (job : Job) (f : String) (h : dirname f = "") :
    includeArgs job f =
      (if job.include_paths = [] then ["--proto_path=."]
       else job.include_paths.map (fun p => "--proto_path=" ++ p)) := by
  by_cases hi : job.include_paths = []
  · simp [includeArgs, h, hi]
  · simp [includeArgs, h, hi]

theorem spec_C10_witness :
    includeArgs
      { proto_files := ["a.proto"], output_dir := "out",
        generate_java := true, generate_python := false,
        generate_python_grpc := false, protoc_path := "protoc",
        include_paths := ["A"] } "a.proto" = ["--proto_path=A"] := by
  have h := spec_C10_bare_filename
    { proto_files := ["a.proto"], output_dir := "out",
      generate_java := true, generate_python := false,
      generate_python_grpc := false, protoc_path := "protoc",
      include_paths := ["A"] } "a.proto" (by decide)
  simpa using h

/-! ### Single toolchain invocation (claim C6) -/

/-- A `--java_out=` flag is never the literal `-m`. -/
lemma javaOut_ne_m (s : String) : ("--java_out=" ++ s) ≠ "-m" := by
  intro h
  have hl := congrArg String.length h
  rw [String.length_append] at hl
  have h1 : ("--java_out=" : String).length = 11 := rfl
  have h2 : ("-m" : String).length = 2 := rfl
  rw [h1, h2] at hl
  omega

/-- The native-compiler invocation is not a toolchain invocation. -/
lemma isToolchainCmd_javaCmd (job : Job) (f : String) :
    isToolchainCmd (javaCmd job f) = false := by
  have hne := includeArgs_ne_nil job f
  unfold javaCmd
  cases hrest : includeArgs job f with
  | nil => exact absurd hrest hne
  | cons a t =>
      simp only [List.cons_append, isToolchainCmd, decide_eq_false_iff_not]
      rintro ⟨h, -⟩
      exact javaOut_ne_m _ h

/-- The spawned list of `_generate_python_with_grpc` is always exactly the
single dual-output command. -/
lemma gpwg_spawned (w : World) (job : Job) (f : String) :
    (generate_python_with_grpc w job f).2.1 =
      [pythonGrpcCmd w.sysExecutable job f] := by
  unfold generate_python_with_grpc
  cases h : w.runProc (pythonGrpcCmd w.sysExecutable job f) with
  | exn m => simp [h]
  | ok r => simp only [h]; split <;> rfl

/-- The spawned list of `_generate_python_only` is always exactly the
single basic-output command. -/
lemma gpo_spawned (w : World) (job : Job) (f : String) :
    (generate_python_only w job f).2.1 =
      [pythonOnlyCmd w.sysExecutable job f] := by
  unfold generate_python_only
  cases h : w.runProc (pythonOnlyCmd w.sysExecutable job f) with
  | exn m => simp [h]
  | ok r => simp only [h]; split <;> rfl

/-- All possible spawned lists of the Python phase. -/
lemma pythonPhase_spawned_cases (w : World) (job : Job) (f : String)
    (evs : List Event) (sp : List (List String)) :
    (pythonPhase w job f evs sp).spawned = sp ∨
    (∃ c, (c = pythonGrpcCmd w.sysExecutable job f ∨
           c = pythonOnlyCmd w.sysExecutable job f) ∧
      (pythonPhase w job f evs sp).spawned = sp ++ [c]) := by
  unfold pythonPhase
  cases hb : (job.generate_python || job.generate_python_grpc) with
  | false => simp [hb]
  | true =>
      cases hmk : w.makedirs (pythonOutput job) with
      | some m => simp [hb, hmk]
      | none =>
          cases hg : job.generate_python_grpc with
          | true =>
              right
              exact ⟨_, Or.inl rfl, by simp [hb, hmk, hg, gpwg_spawned]⟩
          | false =>
              right
              exact ⟨_, Or.inr rfl, by simp [hb, hmk, hg, gpo_spawned]⟩

/-- All possible spawned lists of one file's processing step. -/
lemma processFile_spawned_cases (w : World) (job : Job) (i total : Nat)
    (f : String) :
    (processFile w job i total f).spawned = [] ∨
    (processFile w job i total f).spawned = [javaCmd job f] ∨
    (∃ c, (c = pythonGrpcCmd w.sysExecutable job f ∨
           c = pythonOnlyCmd w.sysExecutable job f) ∧
      ((processFile w job i total f).spawned = [c] ∨
       (processFile w job i total f).spawned = [javaCmd job f, c])) := by
  unfold processFile
  cases hj : job.generate_java with
  | false =>
      simp only [hj, Bool.false_eq_true, if_false]
      rcases pythonPhase_spawned_cases w job f
          [Event.progress (Msg.processing (basename f) (i + 1) total)] [] with h | ⟨c, hc, h⟩
      · left; simpa using h
      · right; right; exact ⟨c, hc, Or.inl (by simpa using h)⟩
  | true =>
      simp only [hj, if_true]
      cases hmk : w.makedirs (javaOutput job) with
      | some m => simp [hmk]
      | none =>
          simp only [hmk]
          cases hrp : w.runProc (javaCmd job f) with
          | exn m => simp
          | ok r =>
              by_cases hrc : r.returncode ≠ 0
              · simp [hrc]
              · simp only [hrc, if_false]
                rcases pythonPhase_spawned_cases w job f
                    [Event.progress (Msg.processing (basename f) (i + 1) total),
                     Event.progress (Msg.genJava (basename f))] [javaCmd job f] with h | ⟨c, hc, h⟩
                · right; left; simpa using h
                · right; right; exact ⟨c, hc, Or.inr (by simpa using h)⟩

/-- The dual-output grpc invocation is a toolchain invocation. -/
lemma isToolchainCmd_pythonGrpcCmd (sysExe : String) (job : Job) (f : String) :
    isToolchainCmd (pythonGrpcCmd sysExe job f) = true := by
  simp [pythonGrpcCmd, isToolchainCmd]

/-- C6: with ScriptLangWithRpc enabled, at most one toolchain subprocess is
ever attempted for a file; on the path that reaches the Python phase it is
exactly one, the dual-output invocation, which requests both the base
serialization output and the RPC-service output. -/
theorem spec_C6_single_toolchain (w : World) (job : Job) (i total : Nat)
    (f : String) (hg : job.generate_python_grpc = true) :
    (processFile w job i total f).spawned.countP isToolchainCmd ≤ 1 ∧
    ((∀ d, w.makedirs d = none) →
      (job.generate_java = true →
        ∃ r, w.runProc (javaCmd job f) = ProcOutcome.ok r ∧ r.returncode = 0) →
      (processFile w job i total f).spawned.filter isToolchainCmd =
        [pythonGrpcCmd w.sysExecutable job f]) ∧
    ("--python_out=" ++ pythonOutput job) ∈ pythonGrpcCmd w.sysExecutable job f ∧
    ("--grpc_python_out=" ++ pythonOutput job) ∈
      pythonGrpcCmd w.sysExecutable job f := by
  have hjf := isToolchainCmd_javaCmd job f
  refine ⟨?_, ?_, by simp [pythonGrpcCmd], by simp [pythonGrpcCmd]⟩
  · rcases processFile_spawned_cases w job i total f with h | h | ⟨c, hc, h | h⟩
    · simp [h]
    · simp [h, List.countP_cons, hjf]
    · simp only [h, List.countP_cons, List.countP_nil]
      split <;> simp
    · simp only [h, List.countP_cons, List.countP_nil, hjf]
      split <;> simp
  · intro hmk hj
    cases hjv : job.generate_java with
    | true =>
        obtain ⟨r, hr, hrc⟩ := hj hjv
        simp [processFile, pythonPhase, hjv, hmk, hr, hrc, hg, gpwg_spawned,
          List.filter_append, hjf, isToolchainCmd_pythonGrpcCmd]
    | false =>
        simp [processFile, pythonPhase, hjv, hmk, hg, gpwg_spawned,
          isToolchainCmd_pythonGrpcCmd]

theorem spec_C6_witness :
    (processFile wOk jobGrpcOnly 0 1 "a.proto").spawned.countP isToolchainCmd
      ≤ 1 ∧
    (processFile wOk jobGrpcOnly 0 1 "a.proto").spawned.filter isToolchainCmd
      = [pythonGrpcCmd wOk.sysExecutable jobGrpcOnly "a.proto"] ∧
    ("--python_out=" ++ pythonOutput jobGrpcOnly) ∈
      pythonGrpcCmd wOk.sysExecutable jobGrpcOnly "a.proto" ∧
    ("--grpc_python_out=" ++ pythonOutput jobGrpcOnly) ∈
      pythonGrpcCmd wOk.sysExecutable jobGrpcOnly "a.proto" := by
  have h := spec_C6_single_toolchain wOk jobGrpcOnly 0 1 "a.proto" rfl
  exact ⟨h.1, h.2.1 (fun d => rfl) (fun hj => ⟨⟨0, ""⟩, rfl, rfl⟩),
    h.2.2.1, h.2.2.2⟩

/-! ### Validation before any work (claim C7) -/

/-- C7: a job with an empty schema-file list, an empty output-directory
string, or zero enabled targets is rejected by `start_conversion` with a
warning, with no subprocess spawned and no worker started. -/
theorem spec_C7_validation (w : World) (g : GuiState)
    (h : g.proto_files = [] ∨ g.output_dir_text = "" ∨
      (g.java_checked = false ∧ g.python_checked = false ∧
       g.python_grpc_checked = false)) :
    (start_conversion w g).1 = [] ∧
    isWarned (start_conversion w g).2 = true := by
  rcases h with h | h | ⟨ha, hb, hc⟩
  · simp [start_conversion, h, isWarned]
  · by_cases h0 : g.proto_files = []
    · simp [start_conversion, h0, isWarned]
    · simp [start_conversion, h0, h, isWarned]
  · by_cases h0 : g.proto_files = []
    · simp [start_conversion, h0, isWarned]
    · by_cases h1 : g.output_dir_text = ""
      · simp [start_conversion, h0, h1, isWarned]
      · simp [start_conversion, h0, h1, ha, hb, hc, isWarned]

theorem spec_C7_witness :
    (start_conversion wOk guiEmptyFiles).1 = [] ∧
    isWarned (start_conversion wOk guiEmptyFiles).2 = true :=
  spec_C7_validation wOk guiEmptyFiles (Or.inl rfl)

/-! ### Terminal-event shape lemmas -/

@[simp] lemma isFinishedEvent_progress (m : Msg) :
    isFinishedEvent (Event.progress m) = false := rfl

@[simp] lemma isFinishedEvent_finished (b : Bool) (m : Msg) :
    isFinishedEvent (Event.finished b m) = true := rfl

@[simp] lemma isHeaderEvent_finished (b : Bool) (m : Msg) :
    isHeaderEvent (Event.finished b m) = false := rfl

@[simp] lemma isHeaderEvent_processing (n : String) (i t : Nat) :
    isHeaderEvent (Event.progress (Msg.processing n i t)) = true := rfl

@[simp] lemma isHeaderEvent_genJava (n : String) :
    isHeaderEvent (Event.progress (Msg.genJava n)) = false := rfl

@[simp] lemma isHeaderEvent_genPythonGrpc (n : String) :
    isHeaderEvent (Event.progress (Msg.genPythonGrpc n)) = false := rfl

@[simp] lemma isHeaderEvent_genPython (n : String) :
    isHeaderEvent (Event.progress (Msg.genPython n)) = false := rfl

/-- The Python phase either ends without emitting a `finished` event, or it
ends `stopped` with a single `finished` event in final position. -/
lemma pythonPhase_shape (w : World) (job : Job) (f : String) (evs : List Event)
    (sp : List (List String)) (h : evs.countP isFinishedEvent = 0) :
    ((pythonPhase w job f evs sp).status = FileStatus.stopped →
      ∃ pre m, (pythonPhase w job f evs sp).events =
          pre ++ [Event.finished false m] ∧
        pre.countP isFinishedEvent = 0) ∧
    ((pythonPhase w job f evs sp).status ≠ FileStatus.stopped →
      (pythonPhase w job f evs sp).events.countP isFinishedEvent = 0) := by
  cases hb : (job.generate_python || job.generate_python_grpc) with
  | false =>
      have hval : pythonPhase w job f evs sp = ⟨evs, sp, .done⟩ := by
        simp [pythonPhase, hb]
      rw [hval]
      exact ⟨fun hs => by simp at hs, fun _ => h⟩
  | true =>
      cases hmk : w.makedirs (pythonOutput job) with
      | some m =>
          have hval : pythonPhase w job f evs sp = ⟨evs, sp, .raised m⟩ := by
            simp [pythonPhase, hb, hmk]
          rw [hval]
          exact ⟨fun hs => by simp at hs, fun _ => h⟩
      | none =>
          cases hg : job.generate_python_grpc with
          | true =>
              cases hrp : w.runProc (pythonGrpcCmd w.sysExecutable job f) with
              | exn m =>
                  have hval : pythonPhase w job f evs sp =
                      ⟨evs ++ [Event.progress (Msg.genPythonGrpc (basename f)),
                         Event.finished false (Msg.pythonGrpcError m)],
                       sp ++ [pythonGrpcCmd w.sysExecutable job f], .stopped⟩ := by
                    simp [pythonPhase, hb, hmk, hg, generate_python_with_grpc, hrp]
                  rw [hval]
                  refine ⟨fun _ =>
                    ⟨evs ++ [Event.progress (Msg.genPythonGrpc (basename f))],
                     Msg.pythonGrpcError m, by simp, ?_⟩, fun hs => by simp at hs⟩
                  simp [List.countP_append, List.countP_cons, h]
              | ok r =>
                  by_cases hrc : r.returncode = 0
                  · have hval : pythonPhase w job f evs sp =
                        ⟨evs ++ [Event.progress (Msg.genPythonGrpc (basename f))],
                         sp ++ [pythonGrpcCmd w.sysExecutable job f], .done⟩ := by
                      simp [pythonPhase, hb, hmk, hg, generate_python_with_grpc,
                        hrp, hrc]
                    rw [hval]
                    exact ⟨fun hs => by simp at hs,
                      fun _ => by simp [List.countP_append, List.countP_cons, h]⟩
                  · have hval : pythonPhase w job f evs sp =
                        ⟨evs ++ [Event.progress (Msg.genPythonGrpc (basename f)),
                           Event.finished false (Msg.pythonGrpcFailed r.stderr)],
                         sp ++ [pythonGrpcCmd w.sysExecutable job f], .stopped⟩ := by
                      simp [pythonPhase, hb, hmk, hg, generate_python_with_grpc,
                        hrp, hrc]
                    rw [hval]
                    refine ⟨fun _ =>
                      ⟨evs ++ [Event.progress (Msg.genPythonGrpc (basename f))],
                       Msg.pythonGrpcFailed r.stderr, by simp, ?_⟩,
                      fun hs => by simp at hs⟩
                    simp [List.countP_append, List.countP_cons, h]
          | false =>
              have hp : job.generate_python = true := by simpa [hg] using hb
              cases hrp : w.runProc (pythonOnlyCmd w.sysExecutable job f) with
              | exn m =>
                  have hval : pythonPhase w job f evs sp =
                      ⟨evs ++ [Event.progress (Msg.genPython (basename f)),
                         Event.finished false (Msg.pythonError m)],
                       sp ++ [pythonOnlyCmd w.sysExecutable job f], .stopped⟩ := by
                    simp [pythonPhase, hb, hmk, hg, hp, generate_python_only, hrp]
                  rw [hval]
                  refine ⟨fun _ =>
                    ⟨evs ++ [Event.progress (Msg.genPython (basename f))],
                     Msg.pythonError m, by simp, ?_⟩, fun hs => by simp at hs⟩
                  simp [List.countP_append, List.countP_cons, h]
              | ok r =>
                  by_cases hrc : r.returncode = 0
                  · have hval : pythonPhase w job f evs sp =
                        ⟨evs ++ [Event.progress (Msg.genPython (basename f))],
                         sp ++ [pythonOnlyCmd w.sysExecutable job f], .done⟩ := by
                      simp [pythonPhase, hb, hmk, hg, hp, generate_python_only, hrp, hrc]
                    rw [hval]
                    exact ⟨fun hs => by simp at hs,
                      fun _ => by simp [List.countP_append, List.countP_cons, h]⟩
                  · have hval : pythonPhase w job f evs sp =
                        ⟨evs ++ [Event.progress (Msg.genPython (basename f)),
                           Event.finished false (Msg.pythonFailed r.stderr)],
                         sp ++ [pythonOnlyCmd w.sysExecutable job f], .stopped⟩ := by
                      simp [pythonPhase, hb, hmk, hg, hp, generate_python_only, hrp, hrc]
                    rw [hval]
                    refine ⟨fun _ =>
                      ⟨evs ++ [Event.progress (Msg.genPython (basename f))],
                       Msg.pythonFailed r.stderr, by simp, ?_⟩,
                      fun hs => by simp at hs⟩
                    simp [List.countP_append, List.countP_cons, h]

/-- Processing one file either ends without emitting a `finished` event, or
ends `stopped` with a single `finished` event in final position. -/
lemma processFile_shape (w : World) (job : Job) (i total : Nat) (f : String) :
    ((processFile w job i total f).status = FileStatus.stopped →
      ∃ pre m, (processFile w job i total f).events =
          pre ++ [Event.finished false m] ∧
        pre.countP isFinishedEvent = 0) ∧
    ((processFile w job i total f).status ≠ FileStatus.stopped →
      (processFile w job i total f).events.countP isFinishedEvent = 0) := by
  cases hj : job.generate_java with
  | false =>
      have hval : processFile w job i total f =
          pythonPhase w job f
            [Event.progress (Msg.processing (basename f) (i + 1) total)] [] := by
        simp [processFile, hj]
      rw [hval]
      exact pythonPhase_shape w job f _ _ (by simp [List.countP_cons])
  | true =>
      cases hmk : w.makedirs (javaOutput job) with
      | some m =>
          have hval : processFile w job i total f =
              ⟨[Event.progress (Msg.processing (basename f) (i + 1) total)],
               [], .raised m⟩ := by
            simp [processFile, hj, hmk]
          rw [hval]
          exact ⟨fun hs => by simp at hs, fun _ => by simp [List.countP_cons]⟩
      | none =>
          cases hrp : w.runProc (javaCmd job f) with
          | exn m =>
              have hval : processFile w job i total f =
                  ⟨[Event.progress (Msg.processing (basename f) (i + 1) total),
                    Event.progress (Msg.genJava (basename f))],
                   [javaCmd job f], .raised m⟩ := by
                simp [processFile, hj, hmk, hrp]
              rw [hval]
              exact ⟨fun hs => by simp at hs, fun _ => by simp [List.countP_cons]⟩
          | ok r =>
              by_cases hrc : r.returncode = 0
              · have hval : processFile w job i total f =
                    pythonPhase w job f
                      [Event.progress (Msg.processing (basename f) (i + 1) total),
                       Event.progress (Msg.genJava (basename f))]
                      [javaCmd job f] := by
                  simp [processFile, hj, hmk, hrp, hrc]
                rw [hval]
                exact pythonPhase_shape w job f _ _ (by simp [List.countP_cons])
              · have hval : processFile w job i total f =
                    ⟨[Event.progress (Msg.processing (basename f) (i + 1) total),
                      Event.progress (Msg.genJava (basename f)),
                      Event.finished false (Msg.javaFailed r.stderr)],
                     [javaCmd job f], .stopped⟩ := by
                  simp [processFile, hj, hmk, hrp, hrc]
                rw [hval]
                refine ⟨fun _ =>
                  ⟨[Event.progress (Msg.processing (basename f) (i + 1) total),
                    Event.progress (Msg.genJava (basename f))],
                   Msg.javaFailed r.stderr, by simp, by simp [List.countP_cons]⟩,
                  fun hs => by simp at hs⟩

/-- The loop either ends without emitting a `finished` event, or ends
`stopped` with a single `finished` event in final position. -/
lemma runLoop_shape (w : World) (job : Job) (total : Nat) :
    ∀ (files : List String) (i : Nat),
    ((runLoop w job total i files).status = FileStatus.stopped →
      ∃ pre m, (runLoop w job total i files).events =
          pre ++ [Event.finished false m] ∧
        pre.countP isFinishedEvent = 0) ∧
    ((runLoop w job total i files).status ≠ FileStatus.stopped →
      (runLoop w job total i files).events.countP isFinishedEvent = 0) := by
  intro files
  induction files with
  | nil => intro i; simp [runLoop]
  | cons f rest ih =>
      intro i
      have hpf := processFile_shape w job i total f
      cases hst : (processFile w job i total f).status with
      | done =>
          have h0 : (processFile w job i total f).events.countP isFinishedEvent
              = 0 := hpf.2 (by simp [hst])
          have hval : runLoop w job total i (f :: rest) =
              ⟨(processFile w job i total f).events ++
                 (runLoop w job total (i + 1) rest).events,
               (processFile w job i total f).spawned ++
                 (runLoop w job total (i + 1) rest).spawned,
               (runLoop w job total (i + 1) rest).status,
               (runLoop w job total (i + 1) rest).count + 1⟩ := by
            simp [runLoop, hst]
          rw [hval]
          constructor
          · intro hs
            obtain ⟨pre, m, he, hc⟩ := (ih (i + 1)).1 hs
            exact ⟨(processFile w job i total f).events ++ pre, m,
              by rw [he, List.append_assoc],
              by simp [List.countP_append, h0, hc]⟩
          · intro hs
            have h1 := (ih (i + 1)).2 hs
            simp [List.countP_append, h0, h1]
      | stopped =>
          have hval : runLoop w job total i (f :: rest) =
              ⟨(processFile w job i total f).events,
               (processFile w job i total f).spawned, .stopped, 0⟩ := by
            simp [runLoop, hst]
          rw [hval]
          exact ⟨fun _ => hpf.1 hst, fun hs => absurd rfl hs⟩
      | raised m =>
          have hval : runLoop w job total i (f :: rest) =
              ⟨(processFile w job i total f).events,
               (processFile w job i total f).spawned, .raised m, 0⟩ := by
            simp [runLoop, hst]
          rw [hval]
          exact ⟨fun hs => by simp at hs, fun _ => hpf.2 (by simp [hst])⟩

/-! ### Exactly one terminal notification, last (claim C8) -/

/-- C8: every run emits exactly one `finished` (Terminal) notification, and
it is the last notification of the run. -/
theorem spec_C8_terminal_unique (w : World) (job : Job) :
    ∃ pre b m, (ProtocWorker.run w job).events = pre ++ [Event.finished b m] ∧
      pre.countP isFinishedEvent = 0 := by
  have hl := runLoop_shape w job job.proto_files.length job.proto_files 0
  cases hst : (runLoop w job job.proto_files.length 0 job.proto_files).status with
  | done =>
      have h0 := hl.2 (by simp [hst])
      have hval : ProtocWorker.run w job =
          ⟨(runLoop w job job.proto_files.length 0 job.proto_files).events ++
             [Event.finished true (Msg.successDone
               (runLoop w job job.proto_files.length 0 job.proto_files).count)],
           (runLoop w job job.proto_files.length 0 job.proto_files).spawned⟩ := by
        simp [ProtocWorker.run, hst]
      rw [hval]
      exact ⟨_, true, _, rfl, h0⟩
  | stopped =>
      obtain ⟨pre, m, he, hc⟩ := hl.1 hst
      have hval : ProtocWorker.run w job =
          ⟨(runLoop w job job.proto_files.length 0 job.proto_files).events,
           (runLoop w job job.proto_files.length 0 job.proto_files).spawned⟩ := by
        simp [ProtocWorker.run, hst]
      rw [hval]
      exact ⟨pre, false, m, he, hc⟩
  | raised m =>
      have h0 := hl.2 (by simp [hst])
      have hval : ProtocWorker.run w job =
          ⟨(runLoop w job job.proto_files.length 0 job.proto_files).events ++
             [Event.finished false (Msg.runError m)],
           (runLoop w job job.proto_files.length 0 job.proto_files).spawned⟩ := by
        simp [ProtocWorker.run, hst]
      rw [hval]
      exact ⟨_, false, _, rfl, h0⟩

/-! ### Internal faults are caught and converted (claim C9) -/

/-- C9: an internal fault never propagates past the worker.  When the loop
ends with a raised exception the run ends with a single failure Terminal
notification carrying the exception text; a spawn failure inside the gRPC
helper — whatever the Java setting — is caught there and converted into a
single trailing failure event carrying the exception text in place of
stderr, and likewise for a spawn failure inside the basic-Python helper. -/
theorem spec_C9_fault_conversion :
    (∀ (w : World) (job : Job) (m : String),
      (runLoop w job job.proto_files.length 0 job.proto_files).status =
        FileStatus.raised m →
      (ProtocWorker.run w job).events.countP isFinishedEvent = 1 ∧
      (ProtocWorker.run w job).events.getLast? =
        some (Event.finished false (Msg.runError m))) ∧
    (∀ (w : World) (job : Job) (i total : Nat) (f m : String),
      job.generate_python_grpc = true →
      (job.generate_java = true →
        ∃ t, w.runProc (javaCmd job f) = ProcOutcome.ok ⟨0, t⟩) →
      (∀ d, w.makedirs d = none) →
      w.runProc (pythonGrpcCmd w.sysExecutable job f) = ProcOutcome.exn m →
      (processFile w job i total f).status = FileStatus.stopped ∧
      (processFile w job i total f).events.countP isFinishedEvent = 1 ∧
      (processFile w job i total f).events.getLast? =
        some (Event.finished false (Msg.pythonGrpcError m))) ∧
    (∀ (w : World) (job : Job) (i total : Nat) (f m : String),
      job.generate_python = true →
      job.generate_python_grpc = false →
      (job.generate_java = true →
        ∃ t, w.runProc (javaCmd job f) = ProcOutcome.ok ⟨0, t⟩) →
      (∀ d, w.makedirs d = none) →
      w.runProc (pythonOnlyCmd w.sysExecutable job f) = ProcOutcome.exn m →
      (processFile w job i total f).status = FileStatus.stopped ∧
      (processFile w job i total f).events.countP isFinishedEvent = 1 ∧
      (processFile w job i total f).events.getLast? =
        some (Event.finished false (Msg.pythonError m))) := by
  refine ⟨?_, ?_, ?_⟩
  · intro w job m hst
    have h0 := (runLoop_shape w job job.proto_files.length job.proto_files 0).2
      (by simp [hst])
    have hval : ProtocWorker.run w job =
        ⟨(runLoop w job job.proto_files.length 0 job.proto_files).events ++
           [Event.finished false (Msg.runError m)],
         (runLoop w job job.proto_files.length 0 job.proto_files).spawned⟩ := by
      simp [ProtocWorker.run, hst]
    rw [hval]
    constructor
    · simp [List.countP_append, h0]
    · simp
  · intro w job i total f m hg hjok hmk hexn
    cases hj : job.generate_java with
    | true =>
        obtain ⟨t, hjt⟩ := hjok hj
        have hval : processFile w job i total f =
            ⟨[Event.progress (Msg.processing (basename f) (i + 1) total),
              Event.progress (Msg.genJava (basename f)),
              Event.progress (Msg.genPythonGrpc (basename f)),
              Event.finished false (Msg.pythonGrpcError m)],
             [javaCmd job f, pythonGrpcCmd w.sysExecutable job f],
             .stopped⟩ := by
          simp [processFile, pythonPhase, hj, hmk, hjt, hg,
            generate_python_with_grpc, hexn]
        rw [hval]
        exact ⟨rfl, by simp [List.countP_cons], by simp⟩
    | false =>
        have hval : processFile w job i total f =
            ⟨[Event.progress (Msg.processing (basename f) (i + 1) total),
              Event.progress (Msg.genPythonGrpc (basename f)),
              Event.finished false (Msg.pythonGrpcError m)],
             [pythonGrpcCmd w.sysExecutable job f], .stopped⟩ := by
          simp [processFile, pythonPhase, hj, hmk, hg,
            generate_python_with_grpc, hexn]
        rw [hval]
        exact ⟨rfl, by simp [List.countP_cons], by simp⟩
  · intro w job i total f m hpyt hgr hjok hmk hexn
    cases hj : job.generate_java with
    | true =>
        obtain ⟨t, hjt⟩ := hjok hj
        have hval : processFile w job i total f =
            ⟨[Event.progress (Msg.processing (basename f) (i + 1) total),
              Event.progress (Msg.genJava (basename f)),
              Event.progress (Msg.genPython (basename f)),
              Event.finished false (Msg.pythonError m)],
             [javaCmd job f, pythonOnlyCmd w.sysExecutable job f],
             .stopped⟩ := by
          simp [processFile, pythonPhase, hj, hmk, hjt, hpyt, hgr,
            generate_python_only, hexn]
        rw [hval]
        exact ⟨rfl, by simp [List.countP_cons], by simp⟩
    | false =>
        have hval : processFile w job i total f =
            ⟨[Event.progress (Msg.processing (basename f) (i + 1) total),
              Event.progress (Msg.genPython (basename f)),
              Event.finished false (Msg.pythonError m)],
             [pythonOnlyCmd w.sysExecutable job f], .stopped⟩ := by
          simp [processFile, pythonPhase, hj, hmk, hpyt, hgr,
            generate_python_only, hexn]
        rw [hval]
        exact ⟨rfl, by simp [List.countP_cons], by simp⟩

theorem spec_C9_witness :
    ((ProtocWorker.run wMkFail jobOneJava).events.countP isFinishedEvent = 1 ∧
     (ProtocWorker.run wMkFail jobOneJava).events.getLast? =
       some (Event.finished false (Msg.runError "disk full"))) ∧
    ((processFile wToolExn jobJavaGrpc 0 1 "a.proto").status =
       FileStatus.stopped ∧
     (processFile wToolExn jobJavaGrpc 0 1 "a.proto").events.countP
       isFinishedEvent = 1 ∧
     (processFile wToolExn jobJavaGrpc 0 1 "a.proto").events.getLast? =
       some (Event.finished false (Msg.pythonGrpcError "spawn failure"))) ∧
    ((processFile wToolExn jobPyOnly 0 1 "a.proto").status =
       FileStatus.stopped ∧
     (processFile wToolExn jobPyOnly 0 1 "a.proto").events.countP
       isFinishedEvent = 1 ∧
     (processFile wToolExn jobPyOnly 0 1 "a.proto").events.getLast? =
       some (Event.finished false (Msg.pythonError "spawn failure"))) :=
  ⟨spec_C9_fault_conversion.1 wMkFail jobOneJava "disk full" (by decide),
   spec_C9_fault_conversion.2.1 wToolExn jobJavaGrpc 0 1 "a.proto"
     "spawn failure" rfl (fun _ => ⟨"", by decide⟩) (fun _ => rfl) (by decide),
   spec_C9_fault_conversion.2.2 wToolExn jobPyOnly 0 1 "a.proto"
     "spawn failure" rfl rfl (fun hjv => absurd hjv (by decide))
     (fun _ => rfl) (by decide)⟩

/-! ### Success-path characterization -/

/-- When every invocation for this file exits 0 and `makedirs` succeeds, the
Python phase completes `done`, adding no header and no `finished` event,
and spawns only commands of this file. -/
lemma pythonPhase_success (w : World) (job : Job) (f : String)
    (evs : List Event) (sp : List (List String))
    (hc : ∀ c ∈ fileCmds w.sysExecutable job f,
      ∃ s, w.runProc c = ProcOutcome.ok ⟨0, s⟩)
    (hmk : ∀ d, w.makedirs d = none) :
    (pythonPhase w job f evs sp).status = FileStatus.done ∧
    ∃ extra, (pythonPhase w job f evs sp).events = evs ++ extra ∧
      extra.countP isFinishedEvent = 0 ∧
      extra.filter isHeaderEvent = [] ∧
      ∀ c ∈ (pythonPhase w job f evs sp).spawned,
        c ∈ sp ∨ c ∈ fileCmds w.sysExecutable job f := by
  cases hb : (job.generate_python || job.generate_python_grpc) with
  | false =>
      have hval : pythonPhase w job f evs sp = ⟨evs, sp, .done⟩ := by
        simp [pythonPhase, hb]
      rw [hval]
      exact ⟨rfl, [], by simp, by simp, by simp, fun c hcc => Or.inl hcc⟩
  | true =>
      cases hg : job.generate_python_grpc with
      | true =>
          have hmem : pythonGrpcCmd w.sysExecutable job f ∈
              fileCmds w.sysExecutable job f := by
            simp [fileCmds, hg]
          obtain ⟨s2, hs2⟩ := hc _ hmem
          have hval : pythonPhase w job f evs sp =
              ⟨evs ++ [Event.progress (Msg.genPythonGrpc (basename f))],
               sp ++ [pythonGrpcCmd w.sysExecutable job f], .done⟩ := by
            simp [pythonPhase, hb, hmk, hg, generate_python_with_grpc, hs2]
          rw [hval]
          refine ⟨rfl, [Event.progress (Msg.genPythonGrpc (basename f))], rfl,
            by simp [List.countP_cons], by simp, ?_⟩
          intro c hcc
          rcases List.mem_append.1 hcc with hcc | hcc
          · exact Or.inl hcc
          · simp at hcc
            exact Or.inr (hcc ▸ hmem)
      | false =>
          have hp : job.generate_python = true := by simpa [hg] using hb
          have hmem : pythonOnlyCmd w.sysExecutable job f ∈
              fileCmds w.sysExecutable job f := by
            simp [fileCmds, hg, hp]
          obtain ⟨s2, hs2⟩ := hc _ hmem
          have hval : pythonPhase w job f evs sp =
              ⟨evs ++ [Event.progress (Msg.genPython (basename f))],
               sp ++ [pythonOnlyCmd w.sysExecutable job f], .done⟩ := by
            simp [pythonPhase, hb, hmk, hg, hp, generate_python_only, hs2]
          rw [hval]
          refine ⟨rfl, [Event.progress (Msg.genPython (basename f))], rfl,
            by simp [List.countP_cons], by simp, ?_⟩
          intro c hcc
          rcases List.mem_append.1 hcc with hcc | hcc
          · exact Or.inl hcc
          · simp at hcc
            exact Or.inr (hcc ▸ hmem)

/-- When every invocation for this file exits 0 and `makedirs` succeeds,
processing the file completes `done`, emits exactly one header (its
position notification, first), no `finished` event, and spawns only
commands of this file. -/
lemma processFile_success (w : World) (job : Job) (i total : Nat) (f : String)
    (hc : ∀ c ∈ fileCmds w.sysExecutable job f,
      ∃ s, w.runProc c = ProcOutcome.ok ⟨0, s⟩)
    (hmk : ∀ d, w.makedirs d = none) :
    (processFile w job i total f).status = FileStatus.done ∧
    (processFile w job i total f).events.filter isHeaderEvent =
      [Event.progress (Msg.processing (basename f) (i + 1) total)] ∧
    (processFile w job i total f).events.countP isFinishedEvent = 0 ∧
    ∀ c ∈ (processFile w job i total f).spawned,
      c ∈ fileCmds w.sysExecutable job f := by
  cases hj : job.generate_java with
  | false =>
      have hval : processFile w job i total f =
          pythonPhase w job f
            [Event.progress (Msg.processing (basename f) (i + 1) total)] [] := by
        simp [processFile, hj]
      rw [hval]
      obtain ⟨hs, extra, hev, hcount, hhead, hspawn⟩ :=
        pythonPhase_success w job f _ _ hc hmk
      refine ⟨hs, ?_, ?_, ?_⟩
      · rw [hev]; simp [List.filter_append, hhead]
      · rw [hev]; simp [List.countP_append, List.countP_cons, hcount]
      · intro c hcc
        rcases hspawn c hcc with h | h
        · simp at h
        · exact h
  | true =>
      have hjm : javaCmd job f ∈ fileCmds w.sysExecutable job f := by
        simp [fileCmds, hj]
      obtain ⟨s1, hs1⟩ := hc _ hjm
      have hval : processFile w job i total f =
          pythonPhase w job f
            [Event.progress (Msg.processing (basename f) (i + 1) total),
             Event.progress (Msg.genJava (basename f))] [javaCmd job f] := by
        simp [processFile, hj, hmk, hs1]
      rw [hval]
      obtain ⟨hs, extra, hev, hcount, hhead, hspawn⟩ :=
        pythonPhase_success w job f _ _ hc hmk
      refine ⟨hs, ?_, ?_, ?_⟩
      · rw [hev]; simp [List.filter_append, hhead]
      · rw [hev]; simp [List.countP_append, List.countP_cons, hcount]
      · intro c hcc
        rcases hspawn c hcc with h | h
        · simp at h
          exact h ▸ hjm
        · exact h

/-- When every invocation of every listed file exits 0 and `makedirs`
succeeds, the loop completes `done` with count equal to the number of
files, emits one header per file in list order, emits no `finished` event,
and spawns only commands of the listed files. -/
lemma runLoop_success (w : World) (job : Job) (total : Nat) :
    ∀ (files : List String) (i : Nat),
    (∀ g ∈ files, ∀ c ∈ fileCmds w.sysExecutable job g,
      ∃ s, w.runProc c = ProcOutcome.ok ⟨0, s⟩) →
    (∀ d, w.makedirs d = none) →
    (runLoop w job total i files).status = FileStatus.done ∧
    (runLoop w job total i files).count = files.length ∧
    (runLoop w job total i files).events.filter isHeaderEvent =
      (List.enumFrom i files).map
        (fun p => Event.progress (Msg.processing (basename p.2) (p.1 + 1) total)) ∧
    (runLoop w job total i files).events.countP isFinishedEvent = 0 ∧
    ∀ c ∈ (runLoop w job total i files).spawned,
      ∃ g ∈ files, c ∈ fileCmds w.sysExecutable job g := by
  intro files
  induction files with
  | nil =>
      intro i _ _
      simp [runLoop, List.enumFrom]
  | cons f rest ih =>
      intro i hc hmk
      obtain ⟨hstat, hhead, hcount, hspawn⟩ :=
        processFile_success w job i total f (hc f (by simp)) hmk
      have hr := ih (i + 1) (fun g hg => hc g (by simp [hg])) hmk
      have hval : runLoop w job total i (f :: rest) =
          ⟨(processFile w job i total f).events ++
             (runLoop w job total (i + 1) rest).events,
           (processFile w job i total f).spawned ++
             (runLoop w job total (i + 1) rest).spawned,
           (runLoop w job total (i + 1) rest).status,
           (runLoop w job total (i + 1) rest).count + 1⟩ := by
        simp [runLoop, hstat]
      rw [hval]
      refine ⟨hr.1, by simp [hr.2.1], ?_, ?_, ?_⟩
      · simp [List.filter_append, hhead, hr.2.2.1, List.enumFrom]
      · simp [List.countP_append, hcount, hr.2.2.2.1]
      · intro c hcm
        rcases List.mem_append.1 hcm with hcm | hcm
        · exact ⟨f, by simp, hspawn c hcm⟩
        · obtain ⟨g, hg, hgc⟩ := hr.2.2.2.2 c hcm
          exact ⟨g, by simp [hg], hgc⟩

/-- The loop over an all-successful front segment decomposes into the front
segment's results followed by the rest of the loop. -/
lemma runLoop_append_done (w : World) (job : Job) (total : Nat) :
    ∀ (front rest : List String) (i : Nat),
    (∀ g ∈ front, ∀ c ∈ fileCmds w.sysExecutable job g,
      ∃ s, w.runProc c = ProcOutcome.ok ⟨0, s⟩) →
    (∀ d, w.makedirs d = none) →
    (runLoop w job total i (front ++ rest)).events =
      (runLoop w job total i front).events ++
        (runLoop w job total (i + front.length) rest).events ∧
    (runLoop w job total i (front ++ rest)).spawned =
      (runLoop w job total i front).spawned ++
        (runLoop w job total (i + front.length) rest).spawned ∧
    (runLoop w job total i (front ++ rest)).status =
      (runLoop w job total (i + front.length) rest).status := by
  intro front
  induction front with
  | nil =>
      intro rest i _ _
      simp [runLoop]
  | cons g front ih =>
      intro rest i hc hmk
      obtain ⟨hstat, -, -, -⟩ :=
        processFile_success w job i total g (hc g (by simp)) hmk
      have hih := ih rest (i + 1) (fun x hx => hc x (by simp [hx])) hmk
      have hidx : i + (g :: front).length = i + 1 + front.length := by
        simp [List.length_cons]
        omega
      have hval1 : runLoop w job total i ((g :: front) ++ rest) =
          ⟨(processFile w job i total g).events ++
             (runLoop w job total (i + 1) (front ++ rest)).events,
           (processFile w job i total g).spawned ++
             (runLoop w job total (i + 1) (front ++ rest)).spawned,
           (runLoop w job total (i + 1) (front ++ rest)).status,
           (runLoop w job total (i + 1) (front ++ rest)).count + 1⟩ := by
        simp [runLoop, hstat]
      have hval2 : runLoop w job total i (g :: front) =
          ⟨(processFile w job i total g).events ++
             (runLoop w job total (i + 1) front).events,
           (processFile w job i total g).spawned ++
             (runLoop w job total (i + 1) front).spawned,
           (runLoop w job total (i + 1) front).status,
           (runLoop w job total (i + 1) front).count + 1⟩ := by
        simp [runLoop, hstat]
      rw [hval1, hval2, hidx]
      exact ⟨by rw [hih.1, List.append_assoc],
             by rw [hih.2.1, List.append_assoc],
             hih.2.2⟩

/-- The Python phase only ever appends events to what it is given. -/
lemma pythonPhase_events_extra (w : World) (job : Job) (f : String)
    (evs : List Event) (sp : List (List String)) :
    ∃ extra, (pythonPhase w job f evs sp).events = evs ++ extra := by
  cases hb : (job.generate_python || job.generate_python_grpc) with
  | false => exact ⟨[], by simp [pythonPhase, hb]⟩
  | true =>
      cases hmk : w.makedirs (pythonOutput job) with
      | some m => exact ⟨[], by simp [pythonPhase, hb, hmk]⟩
      | none =>
          cases hg : job.generate_python_grpc with
          | true =>
              exact ⟨Event.progress (Msg.genPythonGrpc (basename f)) ::
                  (generate_python_with_grpc w job f).1,
                by simp [pythonPhase, hb, hmk, hg]⟩
          | false =>
              have hp : job.generate_python = true := by simpa [hg] using hb
              exact ⟨Event.progress (Msg.genPython (basename f)) ::
                  (generate_python_only w job f).1,
                by simp [pythonPhase, hb, hmk, hg, hp]⟩

/-- On the success path the Python phase appends exactly its per-target
progress message. -/
lemma pythonPhase_success_events (w : World) (job : Job) (f : String)
    (evs : List Event) (sp : List (List String))
    (hc : ∀ c ∈ fileCmds w.sysExecutable job f,
      ∃ s, w.runProc c = ProcOutcome.ok ⟨0, s⟩)
    (hmk : ∀ d, w.makedirs d = none) :
    (pythonPhase w job f evs sp).events = evs ++
      (if job.generate_python || job.generate_python_grpc then
        (if job.generate_python_grpc then
          [Event.progress (Msg.genPythonGrpc (basename f))]
        else [Event.progress (Msg.genPython (basename f))])
       else []) := by
  cases hb : (job.generate_python || job.generate_python_grpc) with
  | false => simp [pythonPhase, hb]
  | true =>
      cases hg : job.generate_python_grpc with
      | true =>
          have hmem : pythonGrpcCmd w.sysExecutable job f ∈
              fileCmds w.sysExecutable job f := by
            simp [fileCmds, hg]
          obtain ⟨s2, hs2⟩ := hc _ hmem
          simp [pythonPhase, hb, hmk, hg, generate_python_with_grpc, hs2]
      | false =>
          have hp : job.generate_python = true := by simpa [hg] using hb
          have hmem : pythonOnlyCmd w.sysExecutable job f ∈
              fileCmds w.sysExecutable job f := by
            simp [fileCmds, hg, hp]
          obtain ⟨s2, hs2⟩ := hc _ hmem
          simp [pythonPhase, hb, hmk, hg, hp, generate_python_only, hs2]

/-- On the success path one file's events are exactly its position header
followed by one progress message per enabled target invocation. -/
lemma processFile_success_events (w : World) (job : Job) (i total : Nat)
    (f : String)
    (hc : ∀ c ∈ fileCmds w.sysExecutable job f,
      ∃ s, w.runProc c = ProcOutcome.ok ⟨0, s⟩)
    (hmk : ∀ d, w.makedirs d = none) :
    (processFile w job i total f).events = successFileEvents job total (i, f) := by
  cases hj : job.generate_java with
  | false =>
      have hval : processFile w job i total f =
          pythonPhase w job f
            [Event.progress (Msg.processing (basename f) (i + 1) total)] [] := by
        simp [processFile, hj]
      rw [hval, pythonPhase_success_events w job f _ _ hc hmk]
      simp [successFileEvents, hj]
  | true =>
      have hjm : javaCmd job f ∈ fileCmds w.sysExecutable job f := by
        simp [fileCmds, hj]
      obtain ⟨s1, hs1⟩ := hc _ hjm
      have hval : processFile w job i total f =
          pythonPhase w job f
            [Event.progress (Msg.processing (basename f) (i + 1) total),
             Event.progress (Msg.genJava (basename f))] [javaCmd job f] := by
        simp [processFile, hj, hmk, hs1]
      rw [hval, pythonPhase_success_events w job f _ _ hc hmk]
      simp [successFileEvents, hj]

/-- On the success path the loop's trace is exactly the concatenation of the
per-file success traces, in file-list order. -/
lemma runLoop_success_events (w : World) (job : Job) (total : Nat) :
    ∀ (files : List String) (i : Nat),
    (∀ g ∈ files, ∀ c ∈ fileCmds w.sysExecutable job g,
      ∃ s, w.runProc c = ProcOutcome.ok ⟨0, s⟩) →
    (∀ d, w.makedirs d = none) →
    (runLoop w job total i files).events =
      (List.enumFrom i files).flatMap (successFileEvents job total) := by
  intro files
  induction files with
  | nil => intro i _ _; simp [runLoop, List.enumFrom]
  | cons f rest ih =>
      intro i hc hmk
      obtain ⟨hstat, -, -, -⟩ :=
        processFile_success w job i total f (hc f (by simp)) hmk
      have hval : runLoop w job total i (f :: rest) =
          ⟨(processFile w job i total f).events ++
             (runLoop w job total (i + 1) rest).events,
           (processFile w job i total f).spawned ++
             (runLoop w job total (i + 1) rest).spawned,
           (runLoop w job total (i + 1) rest).status,
           (runLoop w job total (i + 1) rest).count + 1⟩ := by
        simp [runLoop, hstat]
      rw [hval]
      show (processFile w job i total f).events ++
          (runLoop w job total (i + 1) rest).events = _
      rw [processFile_success_events w job i total f (hc f (by simp)) hmk,
        ih (i + 1) (fun g hg => hc g (by simp [hg])) hmk]
      simp [List.enumFrom]

/-- Lifting a stopped file to the whole run: when the files before `f` all
succeed and processing `f` stops with a single trailing failure event after
attempting `cfail` last, the run emits exactly one `finished` event — that
failure, last — the failing invocation is the last one attempted, nothing
beyond `f`'s own commands is ever attempted, and the headers emitted are
those of the earlier files followed by the headers of `f`'s step. -/
lemma run_stopped_single_failure (w : World) (job : Job)
    (front post : List String) (f : String)
    (evs2 : List Event) (sp2 : List (List String)) (cfail : List String)
    (mfail : Msg)
    (hfiles : job.proto_files = front ++ f :: post)
    (hmk : ∀ d, w.makedirs d = none)
    (hfront : ∀ g ∈ front, ∀ c ∈ fileCmds w.sysExecutable job g,
      ∃ t, w.runProc c = ProcOutcome.ok ⟨0, t⟩)
    (hpf : processFile w job front.length job.proto_files.length f =
      ⟨evs2 ++ [Event.finished false mfail], sp2 ++ [cfail], .stopped⟩)
    (hevs2 : evs2.countP isFinishedEvent = 0)
    (hsp2 : ∀ c ∈ sp2 ++ [cfail], c ∈ fileCmds w.sysExecutable job f) :
    (ProtocWorker.run w job).events.countP isFinishedEvent = 1 ∧
    (ProtocWorker.run w job).events.getLast? =
      some (Event.finished false mfail) ∧
    (ProtocWorker.run w job).spawned.getLast? = some cfail ∧
    (ProtocWorker.run w job).spawned ⊆
      front.flatMap (fileCmds w.sysExecutable job) ++
        fileCmds w.sysExecutable job f ∧
    (ProtocWorker.run w job).events.filter isHeaderEvent =
      (List.enumFrom 0 front).map
        (fun p => Event.progress
          (Msg.processing (basename p.2) (p.1 + 1) job.proto_files.length)) ++
        evs2.filter isHeaderEvent := by
  have hrw : runLoop w job job.proto_files.length 0 job.proto_files =
      runLoop w job job.proto_files.length 0 (front ++ f :: post) := by
    rw [hfiles]
  have happ := runLoop_append_done w job job.proto_files.length
    front (f :: post) 0 hfront hmk
  simp only [Nat.zero_add] at happ
  have hloop2 : runLoop w job job.proto_files.length front.length (f :: post) =
      ⟨evs2 ++ [Event.finished false mfail], sp2 ++ [cfail], .stopped, 0⟩ := by
    simp [runLoop, hpf]
  have hfrontOK := runLoop_success w job job.proto_files.length front 0
    hfront hmk
  have hstat : (runLoop w job job.proto_files.length 0 job.proto_files).status
      = FileStatus.stopped := by
    rw [hrw, happ.2.2, hloop2]
  have hval : ProtocWorker.run w job =
      ⟨(runLoop w job job.proto_files.length 0 job.proto_files).events,
       (runLoop w job job.proto_files.length 0 job.proto_files).spawned⟩ := by
    simp [ProtocWorker.run, hstat]
  have hevents : (ProtocWorker.run w job).events =
      (runLoop w job job.proto_files.length 0 front).events ++
        (evs2 ++ [Event.finished false mfail]) := by
    rw [hval]
    show (runLoop w job job.proto_files.length 0 job.proto_files).events = _
    rw [hrw, happ.1, hloop2]
  have hspawned : (ProtocWorker.run w job).spawned =
      (runLoop w job job.proto_files.length 0 front).spawned ++
        (sp2 ++ [cfail]) := by
    rw [hval]
    show (runLoop w job job.proto_files.length 0 job.proto_files).spawned = _
    rw [hrw, happ.2.1, hloop2]
  refine ⟨?_, ?_, ?_, ?_, ?_⟩
  · rw [hevents]
    simp [List.countP_append, List.countP_cons, hfrontOK.2.2.2.1, hevs2]
  · rw [hevents]
    have hassoc : (runLoop w job job.proto_files.length 0 front).events ++
        (evs2 ++ [Event.finished false mfail]) =
        ((runLoop w job job.proto_files.length 0 front).events ++ evs2) ++
          [Event.finished false mfail] := by
      simp
    rw [hassoc]
    exact List.getLast?_concat _
  · rw [hspawned]
    have hassoc : (runLoop w job job.proto_files.length 0 front).spawned ++
        (sp2 ++ [cfail]) =
        ((runLoop w job job.proto_files.length 0 front).spawned ++ sp2) ++
          [cfail] := by
      simp
    rw [hassoc]
    exact List.getLast?_concat _
  · rw [hspawned]
    intro c hc
    rcases List.mem_append.1 hc with hc | hc
    · obtain ⟨g, hg, hgc⟩ := hfrontOK.2.2.2.2 c hc
      exact List.mem_append_left _ (List.mem_flatMap.2 ⟨g, hg, hgc⟩)
    · exact List.mem_append_right _ (hsp2 c hc)
  · rw [hevents]
    simp [List.filter_append, hfrontOK.2.2.1]

/-! ### Progress notifications on an all-success run (claim C2) -/

/-- C2 as stated is false: with one schema file and one enabled target, the
run emits two progress notifications (the position header and the
per-target message), not one, before the single success Terminal whose
count is 1. -/
theorem spec_C2_counterexample :
    jobOneJava.proto_files.length = 1 ∧
    (ProtocWorker.run wOk jobOneJava).events.countP isProgressEvent = 2 ∧
    (ProtocWorker.run wOk jobOneJava).events.getLast? =
      some (Event.finished true (Msg.successDone 1)) := by
  decide

/-- C2 amended: on an all-success run the whole trace is, file by file in
list order, the file's position header followed by exactly one additional
progress notification per enabled target invocation, and after the last
file exactly one success Terminal notification whose processed-file count
equals the number of files; in particular exactly one header per file is
emitted, in order, and the Terminal is last. -/
theorem spec_C2_amended (w : World) (job : Job)
    (hp : ∀ cmd : List String, ∃ s, w.runProc cmd = ProcOutcome.ok ⟨0, s⟩)
    (hmk : ∀ d, w.makedirs d = none) :
    (ProtocWorker.run w job).events =
      job.proto_files.enum.flatMap
        (successFileEvents job job.proto_files.length) ++
        [Event.finished true (Msg.successDone job.proto_files.length)] ∧
    (ProtocWorker.run w job).events.filter isHeaderEvent =
      job.proto_files.enum.map
        (fun p => Event.progress
          (Msg.processing (basename p.2) (p.1 + 1) job.proto_files.length)) ∧
    (ProtocWorker.run w job).events.countP isFinishedEvent = 1 ∧
    (ProtocWorker.run w job).events.getLast? =
      some (Event.finished true (Msg.successDone job.proto_files.length)) := by
  have hr := runLoop_success w job job.proto_files.length job.proto_files 0
    (fun g _ c _ => hp c) hmk
  have hval : ProtocWorker.run w job =
      ⟨(runLoop w job job.proto_files.length 0 job.proto_files).events ++
         [Event.finished true (Msg.successDone
           (runLoop w job job.proto_files.length 0 job.proto_files).count)],
       (runLoop w job job.proto_files.length 0 job.proto_files).spawned⟩ := by
    simp [ProtocWorker.run, hr.1]
  rw [hval]
  refine ⟨?_, ?_, ?_, ?_⟩
  · show (runLoop w job job.proto_files.length 0 job.proto_files).events ++
        _ = _
    rw [runLoop_success_events w job job.proto_files.length job.proto_files 0
      (fun g _ c _ => hp c) hmk, hr.2.1]
    rfl
  · simp only [List.filter_append, hr.2.2.1]
    simp [List.enum]
  · simp [List.countP_append, hr.2.2.2.1]
  · rw [hr.2.1]
    simp

theorem spec_C2_witness :
    (ProtocWorker.run wOk jobOneJava).events =
      jobOneJava.proto_files.enum.flatMap
        (successFileEvents jobOneJava jobOneJava.proto_files.length) ++
        [Event.finished true
          (Msg.successDone jobOneJava.proto_files.length)] ∧
    (ProtocWorker.run wOk jobOneJava).events.filter isHeaderEvent =
      jobOneJava.proto_files.enum.map
        (fun p => Event.progress
          (Msg.processing (basename p.2) (p.1 + 1)
            jobOneJava.proto_files.length)) ∧
    (ProtocWorker.run wOk jobOneJava).events.countP isFinishedEvent = 1 ∧
    (ProtocWorker.run wOk jobOneJava).events.getLast? =
      some (Event.finished true
        (Msg.successDone jobOneJava.proto_files.length)) :=
  spec_C2_amended wOk jobOneJava (fun _ => ⟨"", rfl⟩) (fun _ => rfl)

/-! ### Fail-fast on the first non-zero exit (claim C1) -/

/-- C1 as stated is false in one respect: the failure Terminal notification
does hold the offending target and the captured stderr, and the run does
stop at once, but the message does not hold the file.  Concretely, with
stderr `boom` on the first file's Java invocation the terminal detail is
the string `Java生成失败: boom`, which contains the target and the stderr
but no part of the file name `a.proto`. -/
theorem spec_C1_counterexample :
    (ProtocWorker.run wFail1 jobTwoJava).events =
      [Event.progress (Msg.processing "a.proto" 1 2),
       Event.progress (Msg.genJava "a.proto"),
       Event.finished false (Msg.javaFailed "boom")] ∧
    (ProtocWorker.run wFail1 jobTwoJava).spawned =
      [["protoc", "--java_out=out/java", "--proto_path=/d", "/d/a.proto"]] ∧
    strContainsSub "boom" (Msg.render (Msg.javaFailed "boom")) = true ∧
    strContainsSub "Java" (Msg.render (Msg.javaFailed "boom")) = true ∧
    strContainsSub "a.proto" (Msg.render (Msg.javaFailed "boom")) = false := by
  decide

/-- C1 amended: when the files before `f` all succeed and any of `f`'s
invocations — the native (Java) compiler invocation, the dual-output
gRPC toolchain invocation, or the basic Python toolchain invocation —
exits non-zero with stderr `s`, the run emits exactly one failure Terminal
notification, last, whose detail holds the offending target and `s` (not
the file name); the failing invocation is the last one attempted and every
attempted invocation belongs to an earlier file or to `f` itself — no
later file or target is ever attempted. -/
theorem spec_C1_amended :
    (∀ (w : World) (job : Job) (front post : List String) (f : String)
        (rc : Int) (s : String),
      job.proto_files = front ++ f :: post →
      (∀ d, w.makedirs d = none) →
      (∀ g ∈ front, ∀ c ∈ fileCmds w.sysExecutable job g,
        ∃ t, w.runProc c = ProcOutcome.ok ⟨0, t⟩) →
      job.generate_java = true →
      w.runProc (javaCmd job f) = ProcOutcome.ok ⟨rc, s⟩ →
      rc ≠ 0 →
      (ProtocWorker.run w job).events.countP isFinishedEvent = 1 ∧
      (ProtocWorker.run w job).events.getLast? =
        some (Event.finished false (Msg.javaFailed s)) ∧
      (ProtocWorker.run w job).spawned.getLast? = some (javaCmd job f) ∧
      (ProtocWorker.run w job).spawned ⊆
        front.flatMap (fileCmds w.sysExecutable job) ++
          fileCmds w.sysExecutable job f) ∧
    (∀ (w : World) (job : Job) (front post : List String) (f : String)
        (rc : Int) (s : String),
      job.proto_files = front ++ f :: post →
      (∀ d, w.makedirs d = none) →
      (∀ g ∈ front, ∀ c ∈ fileCmds w.sysExecutable job g,
        ∃ t, w.runProc c = ProcOutcome.ok ⟨0, t⟩) →
      job.generate_python_grpc = true →
      (job.generate_java = true →
        ∃ t, w.runProc (javaCmd job f) = ProcOutcome.ok ⟨0, t⟩) →
      w.runProc (pythonGrpcCmd w.sysExecutable job f) =
        ProcOutcome.ok ⟨rc, s⟩ →
      rc ≠ 0 →
      (ProtocWorker.run w job).events.countP isFinishedEvent = 1 ∧
      (ProtocWorker.run w job).events.getLast? =
        some (Event.finished false (Msg.pythonGrpcFailed s)) ∧
      (ProtocWorker.run w job).spawned.getLast? =
        some (pythonGrpcCmd w.sysExecutable job f) ∧
      (ProtocWorker.run w job).spawned ⊆
        front.flatMap (fileCmds w.sysExecutable job) ++
          fileCmds w.sysExecutable job f) ∧
    (∀ (w : World) (job : Job) (front post : List String) (f : String)
        (rc : Int) (s : String),
      job.proto_files = front ++ f :: post →
      (∀ d, w.makedirs d = none) →
      (∀ g ∈ front, ∀ c ∈ fileCmds w.sysExecutable job g,
        ∃ t, w.runProc c = ProcOutcome.ok ⟨0, t⟩) →
      job.generate_python = true →
      job.generate_python_grpc = false →
      (job.generate_java = true →
        ∃ t, w.runProc (javaCmd job f) = ProcOutcome.ok ⟨0, t⟩) →
      w.runProc (pythonOnlyCmd w.sysExecutable job f) =
        ProcOutcome.ok ⟨rc, s⟩ →
      rc ≠ 0 →
      (ProtocWorker.run w job).events.countP isFinishedEvent = 1 ∧
      (ProtocWorker.run w job).events.getLast? =
        some (Event.finished false (Msg.pythonFailed s)) ∧
      (ProtocWorker.run w job).spawned.getLast? =
        some (pythonOnlyCmd w.sysExecutable job f) ∧
      (ProtocWorker.run w job).spawned ⊆
        front.flatMap (fileCmds w.sysExecutable job) ++
          fileCmds w.sysExecutable job f) := by
  refine ⟨?_, ?_, ?_⟩
  · intro w job front post f rc s hfiles hmk hfront hjava hfail hrc
    have h := run_stopped_single_failure w job front post f
      [Event.progress
         (Msg.processing (basename f) (front.length + 1)
           job.proto_files.length),
       Event.progress (Msg.genJava (basename f))]
      [] (javaCmd job f) (Msg.javaFailed s) hfiles hmk hfront
      (by simp [processFile, hjava, hmk, hfail, hrc])
      (by simp [List.countP_cons])
      (by
        intro c hc
        simp at hc
        subst hc
        simp [fileCmds, hjava])
    exact ⟨h.1, h.2.1, h.2.2.1, h.2.2.2.1⟩
  · intro w job front post f rc s hfiles hmk hfront hgrpc hjok hfail hrc
    cases hj : job.generate_java with
    | true =>
        obtain ⟨t, hjt⟩ := hjok hj
        have h := run_stopped_single_failure w job front post f
          [Event.progress
             (Msg.processing (basename f) (front.length + 1)
               job.proto_files.length),
           Event.progress (Msg.genJava (basename f)),
           Event.progress (Msg.genPythonGrpc (basename f))]
          [javaCmd job f] (pythonGrpcCmd w.sysExecutable job f)
          (Msg.pythonGrpcFailed s) hfiles hmk hfront
          (by simp [processFile, pythonPhase, hj, hmk, hjt, hgrpc,
                generate_python_with_grpc, hfail, hrc])
          (by simp [List.countP_cons])
          (by
            intro c hc
            simp at hc
            rcases hc with hc | hc <;> subst hc <;> simp [fileCmds, hj, hgrpc])
        exact ⟨h.1, h.2.1, h.2.2.1, h.2.2.2.1⟩
    | false =>
        have h := run_stopped_single_failure w job front post f
          [Event.progress
             (Msg.processing (basename f) (front.length + 1)
               job.proto_files.length),
           Event.progress (Msg.genPythonGrpc (basename f))]
          [] (pythonGrpcCmd w.sysExecutable job f)
          (Msg.pythonGrpcFailed s) hfiles hmk hfront
          (by simp [processFile, pythonPhase, hj, hmk, hgrpc,
                generate_python_with_grpc, hfail, hrc])
          (by simp [List.countP_cons])
          (by
            intro c hc
            simp at hc
            subst hc
            simp [fileCmds, hgrpc])
        exact ⟨h.1, h.2.1, h.2.2.1, h.2.2.2.1⟩
  · intro w job front post f rc s hfiles hmk hfront hpyt hgr hjok hfail hrc
    cases hj : job.generate_java with
    | true =>
        obtain ⟨t, hjt⟩ := hjok hj
        have h := run_stopped_single_failure w job front post f
          [Event.progress
             (Msg.processing (basename f) (front.length + 1)
               job.proto_files.length),
           Event.progress (Msg.genJava (basename f)),
           Event.progress (Msg.genPython (basename f))]
          [javaCmd job f] (pythonOnlyCmd w.sysExecutable job f)
          (Msg.pythonFailed s) hfiles hmk hfront
          (by simp [processFile, pythonPhase, hj, hmk, hjt, hpyt, hgr,
                generate_python_only, hfail, hrc])
          (by simp [List.countP_cons])
          (by
            intro c hc
            simp at hc
            rcases hc with hc | hc <;> subst hc <;>
              simp [fileCmds, hj, hpyt, hgr])
        exact ⟨h.1, h.2.1, h.2.2.1, h.2.2.2.1⟩
    | false =>
        have h := run_stopped_single_failure w job front post f
          [Event.progress
             (Msg.processing (basename f) (front.length + 1)
               job.proto_files.length),
           Event.progress (Msg.genPython (basename f))]
          [] (pythonOnlyCmd w.sysExecutable job f)
          (Msg.pythonFailed s) hfiles hmk hfront
          (by simp [processFile, pythonPhase, hj, hmk, hpyt, hgr,
                generate_python_only, hfail, hrc])
          (by simp [List.countP_cons])
          (by
            intro c hc
            simp at hc
            subst hc
            simp [fileCmds, hpyt, hgr])
        exact ⟨h.1, h.2.1, h.2.2.1, h.2.2.2.1⟩

theorem spec_C1_witness :
    ((ProtocWorker.run wFail1 jobTwoJava).events.countP isFinishedEvent = 1 ∧
     (ProtocWorker.run wFail1 jobTwoJava).events.getLast? =
       some (Event.finished false (Msg.javaFailed "boom")) ∧
     (ProtocWorker.run wFail1 jobTwoJava).spawned.getLast? =
       some (javaCmd jobTwoJava "/d/a.proto") ∧
     (ProtocWorker.run wFail1 jobTwoJava).spawned ⊆
       ([] : List String).flatMap (fileCmds wFail1.sysExecutable jobTwoJava) ++
         fileCmds wFail1.sysExecutable jobTwoJava "/d/a.proto") ∧
    ((ProtocWorker.run wToolFail jobJavaGrpc).events.countP isFinishedEvent
        = 1 ∧
     (ProtocWorker.run wToolFail jobJavaGrpc).events.getLast? =
       some (Event.finished false (Msg.pythonGrpcFailed "tool boom")) ∧
     (ProtocWorker.run wToolFail jobJavaGrpc).spawned.getLast? =
       some (pythonGrpcCmd wToolFail.sysExecutable jobJavaGrpc "a.proto") ∧
     (ProtocWorker.run wToolFail jobJavaGrpc).spawned ⊆
       ([] : List String).flatMap
           (fileCmds wToolFail.sysExecutable jobJavaGrpc) ++
         fileCmds wToolFail.sysExecutable jobJavaGrpc "a.proto") ∧
    ((ProtocWorker.run wToolFail jobPyOnly).events.countP isFinishedEvent
        = 1 ∧
     (ProtocWorker.run wToolFail jobPyOnly).events.getLast? =
       some (Event.finished false (Msg.pythonFailed "tool boom")) ∧
     (ProtocWorker.run wToolFail jobPyOnly).spawned.getLast? =
       some (pythonOnlyCmd wToolFail.sysExecutable jobPyOnly "a.proto") ∧
     (ProtocWorker.run wToolFail jobPyOnly).spawned ⊆
       ([] : List String).flatMap
           (fileCmds wToolFail.sysExecutable jobPyOnly) ++
         fileCmds wToolFail.sysExecutable jobPyOnly "a.proto") :=
  ⟨spec_C1_amended.1 wFail1 jobTwoJava [] ["/d/b.proto"] "/d/a.proto" 1 "boom"
     rfl (fun _ => rfl) (by simp) rfl rfl (by decide),
   spec_C1_amended.2.1 wToolFail jobJavaGrpc [] [] "a.proto" 1 "tool boom"
     rfl (fun _ => rfl) (by simp) rfl (fun _ => ⟨"", by decide⟩) (by decide)
     (by decide),
   spec_C1_amended.2.2 wToolFail jobPyOnly [] [] "a.proto" 1 "tool boom"
     rfl (fun _ => rfl) (by simp) rfl rfl
     (fun hjv => absurd hjv (by decide)) (by decide) (by decide)⟩

/-! ### Position of the per-file progress notification (claim C3) -/

/-- C3 as stated is false: the position header `正在处理 (i/total)` is
emitted when processing of a file starts, not after its targets succeed.
With three files and the second one's Java invocation failing, the run
emits two position headers (files 1 and 2), not one, before the failure
Terminal notification. -/
theorem spec_C3_counterexample :
    (ProtocWorker.run wFailB jobThreeJava).events =
      [Event.progress (Msg.processing "a.proto" 1 3),
       Event.progress (Msg.genJava "a.proto"),
       Event.progress (Msg.processing "b.proto" 2 3),
       Event.progress (Msg.genJava "b.proto"),
       Event.finished false (Msg.javaFailed "err2")] ∧
    ((ProtocWorker.run wFailB jobThreeJava).events.filter isHeaderEvent).length
      = 2 := by
  decide

/-- C3 amended: for every schema file — whatever the enabled targets and
however its invocations turn out — the first event of the file's processing
step is its position header, i.e. the header is emitted at the start of
processing, before any target is invoked; and with three files, the first
fully succeeding and the second one's Java invocation exiting non-zero, the
run's headers are exactly those of files 1 and 2, followed by the single
failure Terminal notification, last, and no invocation of file 3 is ever
attempted. -/
theorem spec_C3_amended :
    (∀ (w : World) (job : Job) (i total : Nat) (f : String),
      (processFile w job i total f).events.head? =
        some (Event.progress (Msg.processing (basename f) (i + 1) total))) ∧
    (∀ (w : World) (job : Job) (f1 f2 f3 : String) (rc : Int) (s : String),
      job.proto_files = [f1, f2, f3] →
      job.generate_java = true →
      (∀ d, w.makedirs d = none) →
      (∀ c ∈ fileCmds w.sysExecutable job f1,
        ∃ t, w.runProc c = ProcOutcome.ok ⟨0, t⟩) →
      w.runProc (javaCmd job f2) = ProcOutcome.ok ⟨rc, s⟩ →
      rc ≠ 0 →
      (ProtocWorker.run w job).events.filter isHeaderEvent =
        [Event.progress (Msg.processing (basename f1) 1 3),
         Event.progress (Msg.processing (basename f2) 2 3)] ∧
      (ProtocWorker.run w job).events.countP isFinishedEvent = 1 ∧
      (ProtocWorker.run w job).events.getLast? =
        some (Event.finished false (Msg.javaFailed s)) ∧
      (ProtocWorker.run w job).spawned ⊆
        fileCmds w.sysExecutable job f1 ++
          fileCmds w.sysExecutable job f2) := by
  constructor
  · intro w job i total f
    cases hj : job.generate_java with
    | false =>
        have hval : processFile w job i total f =
            pythonPhase w job f
              [Event.progress (Msg.processing (basename f) (i + 1) total)]
              [] := by
          simp [processFile, hj]
        obtain ⟨extra, hex⟩ := pythonPhase_events_extra w job f
          [Event.progress (Msg.processing (basename f) (i + 1) total)] []
        rw [hval, hex]
        rfl
    | true =>
        cases hmk : w.makedirs (javaOutput job) with
        | some m =>
            have hval : processFile w job i total f =
                ⟨[Event.progress (Msg.processing (basename f) (i + 1) total)],
                 [], .raised m⟩ := by
              simp [processFile, hj, hmk]
            rw [hval]
            rfl
        | none =>
            cases hrp : w.runProc (javaCmd job f) with
            | exn m =>
                have hval : processFile w job i total f =
                    ⟨[Event.progress
                        (Msg.processing (basename f) (i + 1) total),
                      Event.progress (Msg.genJava (basename f))],
                     [javaCmd job f], .raised m⟩ := by
                  simp [processFile, hj, hmk, hrp]
                rw [hval]
                rfl
            | ok r =>
                by_cases hrc : r.returncode = 0
                · have hval : processFile w job i total f =
                      pythonPhase w job f
                        [Event.progress
                           (Msg.processing (basename f) (i + 1) total),
                         Event.progress (Msg.genJava (basename f))]
                        [javaCmd job f] := by
                    simp [processFile, hj, hmk, hrp, hrc]
                  obtain ⟨extra, hex⟩ := pythonPhase_events_extra w job f
                    [Event.progress (Msg.processing (basename f) (i + 1) total),
                     Event.progress (Msg.genJava (basename f))]
                    [javaCmd job f]
                  rw [hval, hex]
                  rfl
                · have hval : processFile w job i total f =
                      ⟨[Event.progress
                          (Msg.processing (basename f) (i + 1) total),
                        Event.progress (Msg.genJava (basename f)),
                        Event.finished false (Msg.javaFailed r.stderr)],
                       [javaCmd job f], .stopped⟩ := by
                    simp [processFile, hj, hmk, hrp, hrc]
                  rw [hval]
                  rfl
  · intro w job f1 f2 f3 rc s hfiles hjava hmk hf1 h2 hrc
    have hlen : job.proto_files.length = 3 := by rw [hfiles]; rfl
    have h := run_stopped_single_failure w job [f1] [f3] f2
      [Event.progress
         (Msg.processing (basename f2) 2 job.proto_files.length),
       Event.progress (Msg.genJava (basename f2))]
      [] (javaCmd job f2) (Msg.javaFailed s)
      (by simpa using hfiles) hmk
      (by
        intro g hg c hc
        simp at hg
        subst hg
        exact hf1 c hc)
      (by simp [processFile, hjava, hmk, h2, hrc])
      (by simp [List.countP_cons])
      (by
        intro c hc
        simp at hc
        subst hc
        simp [fileCmds, hjava])
    obtain ⟨hcount, hlast, -, hsub, hheaders⟩ := h
    refine ⟨?_, hcount, hlast, ?_⟩
    · rw [hheaders, hlen]
      simp [List.enumFrom]
    · intro c hc
      have hx := hsub hc
      simp only [List.flatMap_cons, List.flatMap_nil, List.append_nil] at hx
      exact hx

theorem spec_C3_witness :
    (processFile wFailB jobThreeJava 0 3 "a.proto").events.head? =
      some (Event.progress (Msg.processing (basename "a.proto") 1 3)) ∧
    ((ProtocWorker.run wFailB jobThreeJava).events.filter isHeaderEvent =
      [Event.progress (Msg.processing (basename "a.proto") 1 3),
       Event.progress (Msg.processing (basename "b.proto") 2 3)] ∧
     (ProtocWorker.run wFailB jobThreeJava).events.countP isFinishedEvent
       = 1 ∧
     (ProtocWorker.run wFailB jobThreeJava).events.getLast? =
       some (Event.finished false (Msg.javaFailed "err2")) ∧
     (ProtocWorker.run wFailB jobThreeJava).spawned ⊆
       fileCmds wFailB.sysExecutable jobThreeJava "a.proto" ++
         fileCmds wFailB.sysExecutable jobThreeJava "b.proto") :=
  ⟨spec_C3_amended.1 wFailB jobThreeJava 0 3 "a.proto",
   spec_C3_amended.2 wFailB jobThreeJava "a.proto" "b.proto" "c.proto" 1 "err2"
     rfl rfl (fun _ => rfl)
     (fun c hc => by
       simp [fileCmds, jobThreeJava] at hc
       subst hc
       exact ⟨"", by decide⟩)
     (by decide) (by decide)⟩
